import Mathlib

/-!
Verification of the recurring-job scheduling and policy-resolution engine of
the `tb` repository, shallowly embedded in Lean 4.

Time is modelled as an integer number of seconds in UTC (the source uses
`datetime.now(timezone.utc)` everywhere, so interval arithmetic is plain
addition of seconds). The mutable `dict` holding jobs is modelled as an
association list with Python `dict` update semantics (replacing an existing
key preserves its insertion position; a new key is appended).
-/

namespace TB

/-- State of the `asyncio.Task` handle held in a job's `task` field:
no task spawned yet, a spawned task still running, or a finished task.
The scheduler source never inspects this state; it is carried so that
claims about in-flight executions can be stated. -/
inductive TaskState where
  | idle : TaskState
  | running : TaskState
  | finished : TaskState
deriving DecidableEq, Repr

/-- The `_Job` dataclass of `src/infra/scheduler.py`: a named job with its
interval in seconds, an opaque action identifier (the `coro` field), the
last spawned task handle, and an optional absolute `next_run` timestamp. -/
structure Job where
  name : String
  interval_seconds : Int
  coro : String
  task : TaskState
  next_run : Option Int
deriving DecidableEq, Repr

/-- Association-list membership test on keys, matching `name in self._jobs`. -/
def keysContain (m : List (String × Job)) (k : String) : Bool :=
  (m.map Prod.fst).contains k

/-- Python `dict` assignment `self._jobs[name] = job`: if the key exists its
value is replaced in place (insertion position preserved); otherwise the
pair is appended at the end. -/
def dictInsert (m : List (String × Job)) (k : String) (v : Job) : List (String × Job) :=
  if keysContain m k then
    m.map (fun p => if p.1 = k then (k, v) else p)
  else
    m ++ [(k, v)]

/-- Key lookup in the jobs map, matching `self._jobs.get(name)` /
`self._jobs[name]` (first occurrence wins, as in a `dict`). -/
def jlookup (k : String) : List (String × Job) → Option Job
  | [] => none
  | (k2, j) :: rest => if k2 = k then some j else jlookup k rest

/-- `SchedulerManager.add_interval_job(name, coro, minutes)`
(src/infra/scheduler.py lines 48-50): stores a job under `name` with
`interval_seconds = max(60, minutes * 60)`, the given coroutine, no spawned
task, and `next_run` set to the current time. -/
def add_interval_job (jobs : List (String × Job)) (name : String) (coro : String)
    (minutes : Int) (now : Int) : List (String × Job) :=
  dictInsert jobs name
    { name := name
      interval_seconds := max 60 (minutes * 60)
      coro := coro
      task := TaskState.idle
      next_run := some now }

/-- The dispatch condition of the runner loop
(`if job.next_run and now >= job.next_run`, line 56): `next_run` is set and
has passed. A `datetime` object is always truthy, so the Python `and` test
is exactly "is not None". The `task` field is not consulted. -/
def isDueJob (now : Int) (j : Job) : Bool :=
  match j.next_run with
  | some nr => decide (nr ≤ now)
  | none => false

/-- The per-job body of one runner-loop iteration (lines 56-58): if the job
is due, set `next_run = now + interval_seconds` and spawn a fresh task
(overwriting the `task` handle); return whether a dispatch happened. -/
def tickJob (now : Int) (j : Job) : Job × Bool :=
  if isDueJob now j then
    ({ j with next_run := some (now + j.interval_seconds), task := TaskState.running }, true)
  else
    (j, false)

/-- One full tick of `SchedulerManager._runner` (lines 53-59): every job in
the map is examined in insertion order; the updated map is returned
together with the names dispatched during this tick, in that order. -/
def runnerTick : List (String × Job) → Int → List (String × Job) × List String
  | [], _ => ([], [])
  | (k, j) :: rest, now =>
    let u := tickJob now j
    let r := runnerTick rest now
    ((k, u.1) :: r.1, if u.2 then k :: r.2 else r.2)

/-- Definition following the spec's words for `due(now)` (spec §4.3): the
entity ids whose `next_run <= now` and whose execution is not in flight,
in ascending `next_run` order. Used only to compare the spec's registry
contract against what the runner loop actually selects. -/
def dueSpecWords (jobs : List (String × Job)) (now : Int) : List String :=
  ((jobs.filter (fun p => isDueJob now p.2 && !(p.2.task = TaskState.running))).insertionSort
    (fun a b => a.2.next_run.getD 0 ≤ b.2.next_run.getD 0)).map Prod.fst

/-! ### Retrying executor

`SchedulerManager._execute` (line 61) is decorated with
`@retry(stop=stop_after_attempt(5), wait=wait_random_exponential(multiplier=1, max=60))`
from the `tenacity` library. The retry loop embedded here follows tenacity's
documented semantics: attempt numbers start at 1; after a failed attempt the
stop condition `stop_after_attempt(n)` (attempt_number >= n) is checked; if it
holds the call raises `RetryError` (a permanent failure reported to the
caller), otherwise the executor sleeps for a jittered backoff delay and tries
again. `wait_random_exponential(multiplier=1, max=60)` draws the delay
uniformly from `[0, min(max, multiplier * 2 ^ attempt_number)]`. -/

/-- Outcome of a retried call: the wrapped coroutine eventually succeeded, or
all attempts were exhausted and a `RetryError` is raised to the caller. -/
inductive RetryOutcome where
  | success : RetryOutcome
  | permanentFailure : RetryOutcome
deriving DecidableEq, Repr

/-- Maximum number of attempts fixed by `stop_after_attempt(5)` on
`SchedulerManager._execute`. -/
def executeMaxAttempts : Nat := 5

/-- The tenacity retry loop: `succ n` tells whether the n-th attempt
(1-based) of the wrapped action succeeds. `attempt` is the current attempt
number and `remaining` the number of further attempts the stop condition
still allows. Returns the total number of attempts made and the outcome. -/
def runRetry (succ : Nat → Bool) : Nat → Nat → Nat × RetryOutcome
  | attempt, remaining =>
    if succ attempt then (attempt, RetryOutcome.success)
    else
      match remaining with
      | 0 => (attempt, RetryOutcome.permanentFailure)
      | r + 1 => runRetry succ (attempt + 1) r

/-- A call to the decorated `_execute`: the retry loop starting at attempt 1
with `stop_after_attempt(executeMaxAttempts)`. -/
def executeWithRetry (succ : Nat → Bool) : Nat × RetryOutcome :=
  runRetry succ 1 (executeMaxAttempts - 1)

/-- Upper end of the uniform jitter range used by
`wait_random_exponential(multiplier=1, max=60)` before retrying after the
`attempt`-th failed attempt: `max(0, min(60, 1 * 2 ^ attempt))` seconds. -/
def backoffHigh (attempt : Nat) : ℚ := max 0 (min 60 (1 * 2 ^ attempt))

/-- The possible values of one sampled inter-attempt delay: `random.uniform`
over `[0, backoffHigh attempt]`. -/
def isBackoffDelay (attempt : Nat) (d : ℚ) : Prop :=
  0 ≤ d ∧ d ≤ backoffHigh attempt

/-! ### Scheduler lifecycle

`SchedulerManager.start` / `stop` (lines 32-46) guard a `_running` flag and a
single `_loop_task` handle. The model counts the live (spawned and not yet
cancelled) runner-loop tasks so that the at-most-one-loop-task property can
be stated; `stop` cancels the loop task, dropping the count to zero. -/

/-- Lifecycle state of a `SchedulerManager`: the `_running` flag and the
number of live runner-loop tasks. -/
structure SchedState where
  running : Bool
  loopTasks : Nat
deriving DecidableEq, Repr

/-- State after `__init__`: not running, no loop task. -/
def initSched : SchedState := { running := false, loopTasks := 0 }

/-- `SchedulerManager.start` (lines 32-37): an early return when `_running`
is already set; otherwise the flag is set and one runner-loop task is
spawned via `asyncio.create_task(self._runner())`. -/
def schedStart (s : SchedState) : SchedState :=
  if s.running then s
  else { running := true, loopTasks := s.loopTasks + 1 }

/-- `SchedulerManager.stop` (lines 39-46): clears `_running` and cancels the
loop task (if any), leaving no live runner-loop task. -/
def schedStop (_s : SchedState) : SchedState :=
  { running := false, loopTasks := 0 }

/-- A lifecycle call made by the lifecycle controller. -/
inductive LifecycleOp where
  | start : LifecycleOp
  | stop : LifecycleOp
deriving DecidableEq, Repr

/-- Apply a sequence of lifecycle calls to a state, left to right. -/
def applyLifecycle : SchedState → List LifecycleOp → SchedState
  | s, [] => s
  | s, LifecycleOp.start :: rest => applyLifecycle (schedStart s) rest
  | s, LifecycleOp.stop :: rest => applyLifecycle (schedStop s) rest

/-! ### Repository and management boundary

`src/infra/repo.py` keeps bot settings and a map from group id to a group
record; `src/handlers/admin_commands.py` parses admin text input and calls
into the repo. The JSON persistence side effects (`_save`) write the same
in-memory state to disk and are not modelled. -/

/-- The `BotSettings` dataclass of `src/domain/models.py` (fields the admin
flows read and write; `updated_at` bookkeeping is not modelled). -/
structure BotSettings where
  info_name : Option String
  info_channel : Option String
  info_group : Option String
  welcome_message : Option String
  contact : Option String
  global_interval_min : Int
deriving DecidableEq, Repr

/-- A stored group record (the per-group part of `Repo._data["groups"]`):
optional username and display name, optional per-group interval override in
minutes, and the exclusion flag. -/
structure GroupRec where
  username : Option String
  gname : Option String
  custom_interval_min : Option Int
  excluded_from_global : Bool
deriving DecidableEq, Repr

/-- The in-memory `Repo` state: settings plus the group map (association
list with Python `dict` semantics, insertion order preserved). -/
structure RepoState where
  settings : BotSettings
  groups : List (String × GroupRec)
deriving DecidableEq, Repr

/-- Lookup in the group map, matching `self._data.get("groups", {}).get(gid)`. -/
def glookup (k : String) : List (String × GroupRec) → Option GroupRec
  | [] => none
  | (k2, g) :: rest => if k2 = k then some g else glookup k rest

/-- In-place update of the record stored under an existing key. -/
def gupdate (k : String) (f : GroupRec → GroupRec) :
    List (String × GroupRec) → List (String × GroupRec)
  | [] => []
  | (k2, g) :: rest =>
    if k2 = k then (k2, f g) :: rest else (k2, g) :: gupdate k f rest

/-- `Repo.set_group_interval(gid, minutes)` (src/infra/repo.py lines
121-128): returns `false` and leaves the state untouched when `gid` is
unknown; otherwise stores `minutes` as the group's override and returns
`true`. -/
def set_group_interval (st : RepoState) (gid : String) (minutes : Int) :
    RepoState × Bool :=
  match glookup gid st.groups with
  | none => (st, false)
  | some _ =>
    ({ st with groups :=
        gupdate gid (fun g => { g with custom_interval_min := some minutes }) st.groups },
      true)

/-- `Repo.set_excluded(items, excluded)` (lines 108-119): for each listed id
that exists, set its exclusion flag; unknown ids are skipped. Returns the
number of records changed. -/
def set_excluded (st : RepoState) (items : List String) (excluded : Bool) :
    RepoState × Nat :=
  match items with
  | [] => (st, 0)
  | it :: rest =>
    match glookup it st.groups with
    | none => set_excluded st rest excluded
    | some _ =>
      let groups2 :=
        gupdate it (fun g => { g with excluded_from_global := excluded }) st.groups
      let r := set_excluded { st with groups := groups2 } rest excluded
      (r.1, r.2 + 1)

/-- Replies the admin text-input handler can send back for the two
interval-setting flows. -/
inductive AdminReply where
  | invalidGlobalInterval : AdminReply
  | globalIntervalSet : Int → AdminReply
  | formatError : AdminReply
  | groupIntervalSet : String → Int → AdminReply
  | groupNotFound : String → AdminReply
deriving DecidableEq, Repr

/-- The `awaiting == "set_time_global"` branch of
`AdminCommandsHandler._on_text_input` (src/handlers/admin_commands.py lines
179-191). The input is `none` when `int(text)` raised, otherwise the parsed
minutes; values outside `[1, 1440]` are rejected with an error reply and the
repo is not touched. -/
def handleSetTimeGlobal (st : RepoState) (input : Option Int) : RepoState × AdminReply :=
  match input with
  | none => (st, AdminReply.invalidGlobalInterval)
  | some minutes =>
    if minutes < 1 ∨ minutes > 1440 then (st, AdminReply.invalidGlobalInterval)
    else
      ({ st with settings := { st.settings with global_interval_min := minutes } },
        AdminReply.globalIntervalSet minutes)

/-- The `awaiting == "ex_set_time"` branch of `_on_text_input` (lines
202-217). The input is `none` when splitting `"gid,minutes"` or `int(...)`
raised, otherwise the parsed pair; out-of-range minutes are rejected before
the repo is consulted, and an unknown group id makes `set_group_interval`
return `false`, leaving the state unchanged. -/
def handleExSetTime (st : RepoState) (input : Option (String × Int)) :
    RepoState × AdminReply :=
  match input with
  | none => (st, AdminReply.formatError)
  | some (gid, mins) =>
    if mins < 1 ∨ mins > 1440 then (st, AdminReply.formatError)
    else
      let r := set_group_interval st gid mins
      if r.2 then (r.1, AdminReply.groupIntervalSet gid mins)
      else (r.1, AdminReply.groupNotFound gid)

/-! ### Spec-modelled Job Registry and Policy Resolver

No code in `src/` registers entities with the scheduler or implements the
registry's `due()`: `add_interval_job` has no callers and the runner knows
nothing of group policies. The definitions below carry the doc-comment
marker `Modelled from the spec:` and follow spec §4.2, §4.3 and §6
literally, over the group records the repository does store. -/

/-- Modelled from the spec: the Policy Resolver `resolve(entity_id) ->
(eligible, interval)` of §4.2 — exclusion wins, then the per-entity
override, then the global default (in minutes). -/
def resolvePolicy (globalDefault : Int) (g : GroupRec) : Bool × Int :=
  if g.excluded_from_global then (false, globalDefault)
  else
    match g.custom_interval_min with
    | some ov => (true, ov)
    | none => (true, globalDefault)

/-- Modelled from the spec: a Scheduled Job of the Job Registry (§3) —
entity id, absolute `next_run` timestamp (seconds), and the in-flight
flag. -/
structure RegEntry where
  entity_id : String
  next_run : Int
  in_flight : Bool
deriving DecidableEq, Repr

/-- Modelled from the spec: the core state seen by the registry — the
global default interval (minutes), the per-entity policy records, and the
set of scheduled jobs. -/
structure CoreState where
  globalDefault : Int
  policies : List (String × GroupRec)
  registry : List RegEntry
deriving DecidableEq, Repr

/-- Remove an entity's scheduled job (if any) from the registry. -/
def regRemove (e : String) (reg : List RegEntry) : List RegEntry :=
  reg.filter (fun r => !(r.entity_id = e))

/-- Remove an entity's policy record. -/
def premove (e : String) (ps : List (String × GroupRec)) : List (String × GroupRec) :=
  ps.filter (fun p => !(p.1 = e))

/-- In-flight flag of an entity's current job, `false` when absent. -/
def regInFlight (e : String) (reg : List RegEntry) : Bool :=
  ((reg.find? (fun r => r.entity_id = e)).map RegEntry.in_flight).getD false

/-- Modelled from the spec: `register(entity_id)` (§4.3) — resolve the
policy; when eligible insert a Scheduled Job with `next_run = now +
interval`; when not eligible, no-op. -/
def register_spec (st : CoreState) (e : String) (now : Int) : CoreState :=
  match glookup e st.policies with
  | none => st
  | some g =>
    let r := resolvePolicy st.globalDefault g
    if r.1 then
      { st with registry :=
          regRemove e st.registry ++ [{ entity_id := e, next_run := now + r.2 * 60, in_flight := false }] }
    else st

/-- Modelled from the spec: `update_policy(entity_id)` (§4.3) — re-resolve;
when now ineligible remove the job; when eligible recompute `next_run =
now + interval`, preserving the in-flight state. -/
def update_policy_spec (st : CoreState) (e : String) (now : Int) : CoreState :=
  match glookup e st.policies with
  | none => { st with registry := regRemove e st.registry }
  | some g =>
    let r := resolvePolicy st.globalDefault g
    if r.1 then
      { st with registry :=
          regRemove e st.registry ++ [{ entity_id := e, next_run := now + r.2 * 60, in_flight := regInFlight e st.registry }] }
    else
      { st with registry := regRemove e st.registry }

/-- Modelled from the spec: `due(now)` (§4.3) — the entity ids whose
`next_run <= now` and whose `in_flight` flag is false, in ascending
`next_run` order. -/
def due_spec (reg : List RegEntry) (now : Int) : List String :=
  ((reg.filter (fun r => decide (r.next_run ≤ now) && !r.in_flight)).insertionSort
    (fun a b => a.next_run ≤ b.next_run)).map RegEntry.entity_id

/-- Modelled from the spec: the default policy record a newly added entity
is registered under — no override, not excluded (cf. `Repo.add_groups`; the
username bookkeeping of `add_groups` plays no role in scheduling and is not
modelled). -/
def defaultPolicy (_e : String) : GroupRec :=
  { username := none
    gname := none
    custom_interval_min := none
    excluded_from_global := false }

/-- Modelled from the spec: the management API surface of §6 together with
the scheduler loop's registry interactions (§4.4), as an operation
alphabet over the core state. -/
inductive MgmtOp where
  | addEntity : String → Int → MgmtOp
  | removeEntity : String → MgmtOp
  | setGlobalInterval : Int → Int → MgmtOp
  | setExclusion : String → Bool → Int → MgmtOp
  | setEntityInterval : String → Int → Int → MgmtOp
  | loopTick : Int → MgmtOp
  | completeExec : String → MgmtOp
deriving DecidableEq, Repr

/-- Modelled from the spec: one dispatch decision of the Scheduler Loop
(§4.4) for an already-scheduled entry — when due and not in flight, mark
in-flight and advance `next_run` by the interval re-resolved at dispatch
time. -/
def dispatchEntry (st : CoreState) (now : Int) (r : RegEntry) : RegEntry :=
  if r.next_run ≤ now ∧ r.in_flight = false then
    match glookup r.entity_id st.policies with
    | some g =>
      { r with in_flight := true
               next_run := now + (resolvePolicy st.globalDefault g).2 * 60 }
    | none => r
  else r

/-- Modelled from the spec: apply one management or scheduler-loop
operation. Interval writes are validated against `[1, 1440]` at this
boundary (§7) and rejected without touching the state. -/
def applyMgmt (st : CoreState) (op : MgmtOp) : CoreState :=
  match op with
  | MgmtOp.addEntity e now =>
    match glookup e st.policies with
    | some _ => st
    | none =>
      register_spec { st with policies := st.policies ++ [(e, defaultPolicy e)] } e now
  | MgmtOp.removeEntity e =>
    { st with policies := premove e st.policies, registry := regRemove e st.registry }
  | MgmtOp.setGlobalInterval m now =>
    if m < 1 ∨ m > 1440 then st
    else
      let st2 := { st with globalDefault := m }
      { st2 with registry := st2.registry.map (fun r =>
          match glookup r.entity_id st2.policies with
          | some g =>
            if g.custom_interval_min = none ∧ g.excluded_from_global = false then
              { r with next_run := now + m * 60 }
            else r
          | none => r) }
  | MgmtOp.setExclusion e flag now =>
    match glookup e st.policies with
    | none => st
    | some _ =>
      let ps2 := gupdate e (fun g => { g with excluded_from_global := flag }) st.policies
      update_policy_spec { st with policies := ps2 } e now
  | MgmtOp.setEntityInterval e m now =>
    if m < 1 ∨ m > 1440 then st
    else
      match glookup e st.policies with
      | none => st
      | some _ =>
        let ps2 := gupdate e (fun g => { g with custom_interval_min := some m }) st.policies
        update_policy_spec { st with policies := ps2 } e now
  | MgmtOp.loopTick now =>
    { st with registry := st.registry.map (dispatchEntry st now) }
  | MgmtOp.completeExec e =>
    { st with registry := st.registry.map (fun r =>
        if r.entity_id = e then { r with in_flight := false } else r) }

/-- Modelled from the spec: the initial core state — global default of 5
minutes (the repo's default), no policies, empty registry. -/
def initCore : CoreState := { globalDefault := 5, policies := [], registry := [] }

/-- Apply a sequence of operations, left to right. -/
def applyMgmtList (st : CoreState) : List MgmtOp → CoreState
  | [] => st
  | op :: rest => applyMgmtList (applyMgmt st op) rest

/-- The registry invariant: every scheduled entry belongs to a known,
non-excluded policy record. -/
def CoreInv (st : CoreState) : Prop :=
  ∀ r ∈ st.registry, ∃ g, glookup r.entity_id st.policies = some g ∧
    g.excluded_from_global = false

/-! ### Helper lemmas about the runner tick and the jobs map -/

theorem runnerTick_fst (jobs : List (String × Job)) (now : Int) :
    (runnerTick jobs now).1 = jobs.map (fun p => (p.1, (tickJob now p.2).1)) := by
  induction jobs with
  | nil => rfl
  | cons p rest ih => cases p with
    | mk k j => simp [runnerTick, ih]

theorem runnerTick_snd (jobs : List (String × Job)) (now : Int) :
    (runnerTick jobs now).2 = (jobs.filter (fun p => isDueJob now p.2)).map Prod.fst := by
  induction jobs with
  | nil => rfl
  | cons p rest ih => cases p with
    | mk k j =>
      by_cases h : isDueJob now j
      · simp [runnerTick, tickJob, h, ih]
      · simp [runnerTick, tickJob, h, ih]

theorem jlookup_append (k : String) (a b : List (String × Job)) :
    jlookup k (a ++ b) = ((jlookup k a).rec (jlookup k b) (fun j => some j)) := by
  induction a with
  | nil => simp [jlookup]
  | cons p rest ih => cases p with
    | mk k2 j2 =>
      by_cases h : k2 = k
      · simp [jlookup, h]
      · simp [jlookup, h, ih]

theorem jlookup_eq_none_of_not_contains (k : String) (m : List (String × Job))
    (h : (m.map Prod.fst).contains k = false) : jlookup k m = none := by
  induction m with
  | nil => rfl
  | cons p rest ih => cases p with
    | mk k2 j2 =>
      simp only [List.map_cons, List.contains_cons, Bool.or_eq_false_iff] at h
      have hne : k2 ≠ k := by
        intro he
        simp [he] at h
      simp [jlookup, hne, ih h.2]

theorem jlookup_mem (k : String) (j : Job) (jobs : List (String × Job))
    (hnd : (jobs.map Prod.fst).Nodup) :
    (k, j) ∈ jobs ↔ jlookup k jobs = some j := by
  induction jobs with
  | nil => simp [jlookup]
  | cons p rest ih => cases p with
    | mk k2 j2 =>
      simp only [List.map_cons, List.nodup_cons] at hnd
      by_cases h : k2 = k
      · subst h
        have hl : jlookup k2 ((k2, j2) :: rest) = some j2 := by simp [jlookup]
        rw [hl]
        simp only [Option.some.injEq]
        constructor
        · intro hm
          rcases List.mem_cons.mp hm with he | hr
          · injection he with h1 h2
            exact h2.symm
          · exact absurd (List.mem_map.mpr ⟨(k2, j), hr, rfl⟩) hnd.1
        · rintro rfl
          exact List.mem_cons_self _ _
      · have hl : jlookup k ((k2, j2) :: rest) = jlookup k rest := by
          simp [jlookup, h]
        rw [hl, ← ih hnd.2]
        constructor
        · intro hm
          rcases List.mem_cons.mp hm with he | hr
          · injection he with h1 h2
            exact absurd h1.symm h
          · exact hr
        · intro hr
          exact List.mem_cons_of_mem _ hr

theorem dispatched_iff (now : Int) (k : String) (jobs : List (String × Job))
    (hnd : (jobs.map Prod.fst).Nodup) :
    k ∈ (runnerTick jobs now).2 ↔
      ∃ j, jlookup k jobs = some j ∧ isDueJob now j = true := by
  rw [runnerTick_snd]
  constructor
  · intro hk
    rcases List.mem_map.mp hk with ⟨p, hp, hfst⟩
    rcases List.mem_filter.mp hp with ⟨hmem, hdue⟩
    refine ⟨p.2, ?_, hdue⟩
    have : (k, p.2) ∈ jobs := by
      have hpp : p = (k, p.2) := by
        cases p
        simp at hfst
        simp [hfst]
      exact hpp ▸ hmem
    exact (jlookup_mem k p.2 jobs hnd).mp this
  · rintro ⟨j, hl, hdue⟩
    have hmem : (k, j) ∈ jobs := (jlookup_mem k j jobs hnd).mpr hl
    exact List.mem_map.mpr ⟨(k, j), List.mem_filter.mpr ⟨hmem, hdue⟩, rfl⟩

theorem jlookup_map_snd (k : String) (f : Job → Job) (jobs : List (String × Job)) :
    jlookup k (jobs.map (fun p => (p.1, f p.2))) = (jlookup k jobs).map f := by
  induction jobs with
  | nil => rfl
  | cons p rest ih => cases p with
    | mk k2 j2 =>
      by_cases h : k2 = k
      · simp [jlookup, h]
      · simp [jlookup, h, ih]

theorem jlookup_dictInsert_self (m : List (String × Job)) (k : String) (v : Job) :
    jlookup k (dictInsert m k v) = some v := by
  unfold dictInsert
  by_cases h : keysContain m k
  · simp only [h, if_pos]
    induction m with
    | nil => simp [keysContain] at h
    | cons p rest ih => cases p with
      | mk k2 j2 =>
        by_cases h2 : k2 = k
        · subst h2
          rw [List.map_cons]
          split_ifs with hc
          · simp [jlookup]
          · exact absurd rfl hc
        · have hr : keysContain rest k := by
            simp only [keysContain, List.map_cons, List.contains_cons] at h
            rcases Bool.or_eq_true_iff.mp h with hl | hr2
            · exact absurd (beq_iff_eq.mp hl).symm h2
            · exact hr2
          rw [List.map_cons]
          split_ifs with hc
          · exact absurd (by simpa using hc) h2
          · simp [jlookup, h2, ih hr]
  · simp only [h, if_neg, Bool.false_eq_true, not_false_eq_true]
    rw [jlookup_append]
    have : jlookup k m = none := by
      apply jlookup_eq_none_of_not_contains
      simpa [keysContain] using h
    simp [this, jlookup]

theorem dictInsert_keys_of_contains (m : List (String × Job)) (k : String) (v : Job)
    (h : keysContain m k = true) :
    (dictInsert m k v).map Prod.fst = m.map Prod.fst := by
  unfold dictInsert
  simp only [h, if_pos, List.map_map]
  apply List.map_congr_left
  intro p _
  by_cases hp : p.1 = k
  · simp [hp]
  · simp [hp]

theorem isDueJob_iff (now : Int) (j : Job) :
    isDueJob now j = true ↔ ∃ nr, j.next_run = some nr ∧ nr ≤ now := by
  unfold isDueJob
  cases h : j.next_run with
  | none => simp
  | some nr => simp

theorem keysContain_of_jlookup_some (k : String) (j : Job) (m : List (String × Job))
    (h : jlookup k m = some j) : keysContain m k = true := by
  induction m with
  | nil => simp [jlookup] at h
  | cons p rest ih => cases p with
    | mk k2 j2 =>
      by_cases h2 : k2 = k
      · subst h2
        simp [keysContain]
      · rw [show jlookup k ((k2, j2) :: rest) = jlookup k rest from by simp [jlookup, h2]] at h
        have := ih h
        simp only [keysContain, List.map_cons, List.contains_cons]
        rw [Bool.or_eq_true_iff]
        right
        simpa [keysContain] using this

theorem runnerTick_keys (jobs : List (String × Job)) (now : Int) :
    (runnerTick jobs now).1.map Prod.fst = jobs.map Prod.fst := by
  rw [runnerTick_fst, List.map_map]
  apply List.map_congr_left
  intro p _
  rfl

/-! ### Claim theorems -/

/-- C1, counterexample: the claim says the scheduler loop never dispatches an
entity whose previous execution has not finished. In the code the dispatch
test (line 56) reads only `next_run`: a job whose previously spawned task is
still running is dispatched again as soon as `next_run` has passed. Concrete
input: one job with an in-flight task and `next_run = 0`, tick at time 10 —
the runner dispatches it. -/
theorem c1_counterexample :
    (Job.mk "A" 60 "broadcast" TaskState.running (some 0)).task = TaskState.running ∧
    "A" ∈ (runnerTick [("A", Job.mk "A" 60 "broadcast" TaskState.running (some 0))] 10).2 := by
  exact ⟨rfl, by decide⟩

/-- C1, amended: dispatch of a job is gated solely by its `next_run`
timestamp having passed; the state of the previously spawned task is never
consulted, so a still-running previous execution does not prevent (and
nothing limits) an overlapping second dispatch. -/
theorem c1_dispatch_ignores_in_flight (jobs : List (String × Job)) (now : Int)
    (k : String) (j : Job) (hnd : (jobs.map Prod.fst).Nodup)
    (hl : jlookup k jobs = some j) :
    k ∈ (runnerTick jobs now).2 ↔ ∃ nr, j.next_run = some nr ∧ nr ≤ now := by
  rw [dispatched_iff now k jobs hnd, ← isDueJob_iff]
  constructor
  · rintro ⟨j2, hl2, hdue⟩
    rw [hl] at hl2
    injection hl2 with he
    subst he
    exact hdue
  · intro hdue
    exact ⟨j, hl, hdue⟩

/-- Witness for the amended C1: a job with an in-flight task and
`next_run = 0` is dispatched at time 10. -/
theorem c1_amended_witness :
    "A" ∈ (runnerTick [("A", Job.mk "A" 60 "broadcast" TaskState.running (some 0))] 10).2 :=
  (c1_dispatch_ignores_in_flight
      [("A", Job.mk "A" 60 "broadcast" TaskState.running (some 0))] 10 "A"
      (Job.mk "A" 60 "broadcast" TaskState.running (some 0))
      (by decide) (by decide)).mpr ⟨0, rfl, by decide⟩

/-- C2, counterexample: the claim says registration at time T with effective
interval I stores `next_run = T + I`. The code (line 50) stores
`next_run = self._now()`, that is T itself: registering at T = 0 with
minutes = 5 (effective interval 300 s) yields `next_run = 0`, not 300, and
the job is already due at the very first tick at time 0. -/
theorem c2_counterexample :
    jlookup "A" (add_interval_job [] "A" "broadcast" 5 0) =
      some (Job.mk "A" 300 "broadcast" TaskState.idle (some 0)) ∧
    some (0 : Int) ≠ some ((0 : Int) + 300) ∧
    "A" ∈ (runnerTick (add_interval_job [] "A" "broadcast" 5 0) 0).2 := by
  refine ⟨by decide, by decide, by decide⟩

/-- C2, amended: registration at time T stores
`interval_seconds = max(60, minutes * 60)` and `next_run = T`, so the
entity is due immediately at every tick at or after T, not first at T plus
the interval. -/
theorem c2_register_due_immediately (jobs : List (String × Job))
    (name coro : String) (minutes now : Int) :
    jlookup name (add_interval_job jobs name coro minutes now) =
      some (Job.mk name (max 60 (minutes * 60)) coro TaskState.idle (some now)) ∧
    ∀ t : Int, now ≤ t →
      isDueJob t (Job.mk name (max 60 (minutes * 60)) coro TaskState.idle (some now)) = true := by
  constructor
  · unfold add_interval_job
    exact jlookup_dictInsert_self jobs name _
  · intro t ht
    simp [isDueJob, ht]

/-- Witness for the amended C2 at a concrete registration. -/
theorem c2_amended_witness :
    jlookup "A" (add_interval_job [] "A" "broadcast" 5 0) =
      some (Job.mk "A" (max 60 (5 * 60)) "broadcast" TaskState.idle (some 0)) ∧
    isDueJob 3 (Job.mk "A" (max 60 (5 * 60)) "broadcast" TaskState.idle (some 0)) = true :=
  ⟨(c2_register_due_immediately [] "A" "broadcast" 5 0).1,
    (c2_register_due_immediately [] "A" "broadcast" 5 0).2 3 (by norm_num)⟩

/-- C4: when a job is dispatched at tick time `now`, its `next_run` is set
to `now + interval_seconds` at the moment of dispatch (line 57, before the
execution task is created), and the job is not dispatched again at any
later tick strictly before `now + interval_seconds` — independent of how
long the spawned execution runs, since the tick reads no execution state. -/
theorem c4_reschedule_at_dispatch (jobs : List (String × Job)) (now : Int)
    (k : String) (j : Job) (hnd : (jobs.map Prod.fst).Nodup)
    (hl : jlookup k jobs = some j) (hdue : isDueJob now j = true) :
    jlookup k (runnerTick jobs now).1 =
      some { j with next_run := some (now + j.interval_seconds), task := TaskState.running } ∧
    ∀ t : Int, t < now + j.interval_seconds →
      k ∉ (runnerTick (runnerTick jobs now).1 t).2 := by
  have ha : jlookup k (runnerTick jobs now).1 = some ((tickJob now j).1) := by
    rw [runnerTick_fst, jlookup_map_snd k (fun x => (tickJob now x).1) jobs, hl]
    rfl
  have htj : (tickJob now j).1 =
      { j with next_run := some (now + j.interval_seconds), task := TaskState.running } := by
    simp [tickJob, hdue]
  have hnd2 : ((runnerTick jobs now).1.map Prod.fst).Nodup := by
    rw [runnerTick_keys]
    exact hnd
  refine ⟨ha.trans (by rw [htj]), ?_⟩
  intro t ht hkmem
  rcases (dispatched_iff t k (runnerTick jobs now).1 hnd2).mp hkmem with ⟨j2, hl2, hdue2⟩
  rw [ha, htj] at hl2
  injection hl2 with he
  subst he
  rcases (isDueJob_iff t _).mp hdue2 with ⟨nr, hnr, hle⟩
  injection hnr with he2
  subst he2
  omega

/-- Witness for C4: a due job with interval 60 dispatched at time 0 is
rescheduled to 60 and not dispatched at time 59. -/
theorem c4_witness :
    jlookup "A" (runnerTick [("A", Job.mk "A" 60 "broadcast" TaskState.idle (some 0))] 0).1 =
      some (Job.mk "A" 60 "broadcast" TaskState.running (some (0 + 60))) ∧
    "A" ∉ (runnerTick (runnerTick [("A", Job.mk "A" 60 "broadcast" TaskState.idle (some 0))] 0).1 59).2 := by
  have h := c4_reschedule_at_dispatch
    [("A", Job.mk "A" 60 "broadcast" TaskState.idle (some 0))] 0 "A"
    (Job.mk "A" 60 "broadcast" TaskState.idle (some 0))
    (by decide) (by decide) (by decide)
  exact ⟨h.1, h.2 59 (by norm_num)⟩

/-- C8, counterexample: the claim says the per-tick due selection equals
the spec registry contract — `next_run <= now`, not in flight, ascending
`next_run` order. With job "A" (inserted first, `next_run = 50`, task in
flight) and job "B" (`next_run = 10`, idle) at time 100, the runner
dispatches `["A", "B"]` (insertion order, in-flight included) while the
spec contract gives `["B"]`. -/
theorem c8_counterexample :
    (runnerTick [("A", Job.mk "A" 60 "a" TaskState.running (some 50)),
                 ("B", Job.mk "B" 60 "b" TaskState.idle (some 10))] 100).2 ≠
    dueSpecWords [("A", Job.mk "A" 60 "a" TaskState.running (some 50)),
                  ("B", Job.mk "B" 60 "b" TaskState.idle (some 10))] 100 := by
  decide

/-- C8, amended: the per-tick due selection of the runner is exactly the
jobs whose `next_run` is set and has passed, kept in registry insertion
order, with no in-flight filtering — the selection is unchanged under any
rewrite of every task-handle field. -/
theorem c8_runner_selection (jobs : List (String × Job)) (now : Int) :
    (runnerTick jobs now).2 = (jobs.filter (fun p => isDueJob now p.2)).map Prod.fst ∧
    ∀ ts : TaskState,
      (runnerTick (jobs.map (fun p => (p.1, { p.2 with task := ts }))) now).2 =
        (runnerTick jobs now).2 := by
  refine ⟨runnerTick_snd jobs now, ?_⟩
  intro ts
  induction jobs with
  | nil => rfl
  | cons p rest ih =>
    cases p with
    | mk k j =>
      by_cases h : isDueJob now j = true
      · have h2 : isDueJob now { j with task := ts } = true := h
        simp [runnerTick, tickJob, h, h2, ih]
      · have h2 : ¬ isDueJob now { j with task := ts } = true := h
        simp [runnerTick, tickJob, h, h2, ih]

/-- C9: storing a job under an existing name via `add_interval_job`
replaces it in place — the stored job has `interval_seconds =
max(60, minutes * 60)` and `next_run` reset to the current time (hence due
at every tick at or after `now`), the key list is unchanged, and the map
still holds no two jobs with the same name. -/
theorem c9_add_replaces_job (jobs : List (String × Job)) (name coro : String)
    (minutes now : Int) (j0 : Job) (hnd : (jobs.map Prod.fst).Nodup)
    (hl : jlookup name jobs = some j0) :
    jlookup name (add_interval_job jobs name coro minutes now) =
      some (Job.mk name (max 60 (minutes * 60)) coro TaskState.idle (some now)) ∧
    (add_interval_job jobs name coro minutes now).map Prod.fst = jobs.map Prod.fst ∧
    ((add_interval_job jobs name coro minutes now).map Prod.fst).Nodup ∧
    ∀ t : Int, now ≤ t →
      name ∈ (runnerTick (add_interval_job jobs name coro minutes now) t).2 := by
  have hc : keysContain jobs name = true := keysContain_of_jlookup_some name j0 jobs hl
  have hkeys : (add_interval_job jobs name coro minutes now).map Prod.fst = jobs.map Prod.fst := by
    unfold add_interval_job
    exact dictInsert_keys_of_contains jobs name _ hc
  have hlook : jlookup name (add_interval_job jobs name coro minutes now) =
      some (Job.mk name (max 60 (minutes * 60)) coro TaskState.idle (some now)) := by
    unfold add_interval_job
    exact jlookup_dictInsert_self jobs name _
  have hnd2 : ((add_interval_job jobs name coro minutes now).map Prod.fst).Nodup := by
    rw [hkeys]
    exact hnd
  refine ⟨hlook, hkeys, hnd2, ?_⟩
  intro t ht
  rw [dispatched_iff t name _ hnd2]
  exact ⟨_, hlook, by simp [isDueJob, ht]⟩

/-- Witness for C9: replacing the existing job "A" resets its schedule and
keeps a single entry. -/
theorem c9_witness :
    jlookup "A" (add_interval_job [("A", Job.mk "A" 60 "old" TaskState.running (some 500))] "A" "new" 5 100) =
      some (Job.mk "A" (max 60 (5 * 60)) "new" TaskState.idle (some 100)) ∧
    (add_interval_job [("A", Job.mk "A" 60 "old" TaskState.running (some 500))] "A" "new" 5 100).map Prod.fst =
      [("A", Job.mk "A" 60 "old" TaskState.running (some 500))].map Prod.fst ∧
    ((add_interval_job [("A", Job.mk "A" 60 "old" TaskState.running (some 500))] "A" "new" 5 100).map Prod.fst).Nodup ∧
    "A" ∈ (runnerTick (add_interval_job [("A", Job.mk "A" 60 "old" TaskState.running (some 500))] "A" "new" 5 100) 100).2 := by
  have h := c9_add_replaces_job [("A", Job.mk "A" 60 "old" TaskState.running (some 500))]
    "A" "new" 5 100 (Job.mk "A" 60 "old" TaskState.running (some 500)) (by decide) (by decide)
  exact ⟨h.1, h.2.1, h.2.2.1, h.2.2.2 100 (by norm_num)⟩

/-- Invariant of the lifecycle state: while running there is at most one
live runner-loop task, and while stopped there is none. -/
def LifeInv (s : SchedState) : Prop :=
  (s.running = true → s.loopTasks ≤ 1) ∧ (s.running = false → s.loopTasks = 0)

theorem lifeInv_apply (ops : List LifecycleOp) :
    ∀ s : SchedState, LifeInv s → LifeInv (applyLifecycle s ops) := by
  induction ops with
  | nil => intro s h; exact h
  | cons op rest ih =>
    intro s h
    cases op with
    | start =>
      apply ih
      by_cases hr : s.running
      · have heq : schedStart s = s := by simp [schedStart, hr]
        rw [heq]
        exact h
      · have hz : s.loopTasks = 0 := h.2 (by simpa using hr)
        show LifeInv (schedStart s)
        constructor
        · intro _
          simp [schedStart, hr, hz]
        · intro hf
          simp [schedStart, hr] at hf
    | stop =>
      apply ih
      constructor
      · intro hr
        simp [schedStop] at hr
      · intro _
        simp [schedStop]

/-- C10: `start` is idempotent while the scheduler is running — a second
call returns the state unchanged and spawns no task — and along any
sequence of lifecycle calls from the initial state at most one runner-loop
task is ever live. -/
theorem c10_start_idempotent :
    (∀ s : SchedState, s.running = true → schedStart s = s) ∧
    (∀ ops : List LifecycleOp, (applyLifecycle initSched ops).loopTasks ≤ 1) := by
  constructor
  · intro s hs
    simp [schedStart, hs]
  · intro ops
    have h := lifeInv_apply ops initSched ⟨by intro h; simp [initSched] at h, fun _ => rfl⟩
    by_cases hr : (applyLifecycle initSched ops).running
    · exact h.1 hr
    · rw [h.2 (by simpa using hr)]
      norm_num

/-- Witness for C10: a repeated start leaves the running state unchanged,
and a concrete start-start-stop-start trace holds at most one loop task. -/
theorem c10_witness :
    schedStart (SchedState.mk true 1) = SchedState.mk true 1 ∧
    (applyLifecycle initSched
      [LifecycleOp.start, LifecycleOp.start, LifecycleOp.stop, LifecycleOp.start]).loopTasks ≤ 1 :=
  ⟨c10_start_idempotent.1 (SchedState.mk true 1) rfl,
    c10_start_idempotent.2 [LifecycleOp.start, LifecycleOp.start, LifecycleOp.stop, LifecycleOp.start]⟩

theorem runRetry_all_fail (succ : Nat → Bool) (h : ∀ n, succ n = false) :
    ∀ remaining attempt : Nat,
      runRetry succ attempt remaining = (attempt + remaining, RetryOutcome.permanentFailure) := by
  intro remaining
  induction remaining with
  | zero =>
    intro attempt
    rw [runRetry]
    simp [h]
  | succ r ih =>
    intro attempt
    rw [runRetry]
    simp only [h, Bool.false_eq_true, if_false]
    rw [ih (attempt + 1)]
    have harith : attempt + 1 + r = attempt + (r + 1) := by omega
    rw [harith]

/-- C3: a perpetually failing action invoked through the decorated executor
is attempted exactly `executeMaxAttempts = 5` times and then reported as a
permanent failure (tenacity raises `RetryError` to the caller), never
retried further. -/
theorem c3_retry_cap (succ : Nat → Bool) (h : ∀ n, succ n = false) :
    executeWithRetry succ = (5, RetryOutcome.permanentFailure) := by
  unfold executeWithRetry
  rw [runRetry_all_fail succ h]
  rfl

/-- Witness for C3: the action that fails on every attempt makes exactly 5
attempts and ends in permanent failure. -/
theorem c3_witness :
    executeWithRetry (fun _ => false) = (5, RetryOutcome.permanentFailure) :=
  c3_retry_cap (fun _ => false) (fun _ => rfl)

/-- C7: every sampled inter-attempt delay of
`wait_random_exponential(multiplier=1, max=60)` — any value the uniform
jitter can return for any attempt number — is non-negative and at most 60
seconds. -/
theorem c7_backoff_bounded (attempt : Nat) (d : ℚ) (h : isBackoffDelay attempt d) :
    0 ≤ d ∧ d ≤ 60 := by
  rcases h with ⟨h0, h1⟩
  refine ⟨h0, le_trans h1 ?_⟩
  unfold backoffHigh
  have hm : min (60 : ℚ) (1 * 2 ^ attempt) ≤ (60 : ℚ) := min_le_left _ _
  exact max_le (by norm_num) hm

/-- Witness for C7: the delay 5 s drawn after the third attempt (jitter
range `[0, 8]`) lies within `[0, 60]`. -/
theorem c7_witness :
    isBackoffDelay 3 5 ∧ (0 ≤ (5 : ℚ) ∧ (5 : ℚ) ≤ 60) :=
  ⟨⟨by norm_num, by norm_num [backoffHigh]⟩,
    c7_backoff_bounded 3 5 ⟨by norm_num, by norm_num [backoffHigh]⟩⟩

/-- C6: a configuration error at the management boundary — an unparseable
or out-of-range global interval, an unparseable or out-of-range per-group
interval, or a per-group interval for an unknown group — is rejected
synchronously with an error reply and the stored state is unchanged (these
handler branches never touch the scheduler, so scheduler state is untouched
by construction). -/
theorem c6_config_error_rejected :
    (∀ st : RepoState, handleSetTimeGlobal st none = (st, AdminReply.invalidGlobalInterval)) ∧
    (∀ (st : RepoState) (m : Int), (m < 1 ∨ m > 1440) →
      handleSetTimeGlobal st (some m) = (st, AdminReply.invalidGlobalInterval)) ∧
    (∀ st : RepoState, handleExSetTime st none = (st, AdminReply.formatError)) ∧
    (∀ (st : RepoState) (gid : String) (m : Int), (m < 1 ∨ m > 1440) →
      handleExSetTime st (some (gid, m)) = (st, AdminReply.formatError)) ∧
    (∀ (st : RepoState) (gid : String) (m : Int), 1 ≤ m → m ≤ 1440 →
      glookup gid st.groups = none →
      handleExSetTime st (some (gid, m)) = (st, AdminReply.groupNotFound gid)) := by
  refine ⟨fun st => rfl, ?_, fun st => rfl, ?_, ?_⟩
  · intro st m hm
    simp [handleSetTimeGlobal, hm]
  · intro st gid m hm
    simp [handleExSetTime, hm]
  · intro st gid m h1 h2 hg
    have hm : ¬ (m < 1 ∨ m > 1440) := by omega
    simp [handleExSetTime, hm, set_group_interval, hg]

/-- Witness for C6: out-of-range and unknown-group requests against a
concrete one-group state are rejected with the state unchanged. -/
theorem c6_witness :
    handleSetTimeGlobal
        (RepoState.mk (BotSettings.mk none none none none none 5)
          [("G", GroupRec.mk none none none false)]) (some 0) =
      (RepoState.mk (BotSettings.mk none none none none none 5)
          [("G", GroupRec.mk none none none false)], AdminReply.invalidGlobalInterval) ∧
    handleExSetTime
        (RepoState.mk (BotSettings.mk none none none none none 5)
          [("G", GroupRec.mk none none none false)]) (some ("G", 2000)) =
      (RepoState.mk (BotSettings.mk none none none none none 5)
          [("G", GroupRec.mk none none none false)], AdminReply.formatError) ∧
    handleExSetTime
        (RepoState.mk (BotSettings.mk none none none none none 5)
          [("G", GroupRec.mk none none none false)]) (some ("X", 5)) =
      (RepoState.mk (BotSettings.mk none none none none none 5)
          [("G", GroupRec.mk none none none false)], AdminReply.groupNotFound "X") :=
  ⟨c6_config_error_rejected.2.1 _ 0 (by norm_num),
    c6_config_error_rejected.2.2.2.1 _ "G" 2000 (by norm_num),
    c6_config_error_rejected.2.2.2.2 _ "X" 5 (by norm_num) (by norm_num) (by decide)⟩

/-! ### Lemmas for the spec-modelled registry -/

theorem glookup_gupdate_ne (x e : String) (f : GroupRec → GroupRec)
    (ps : List (String × GroupRec)) (h : x ≠ e) :
    glookup x (gupdate e f ps) = glookup x ps := by
  induction ps with
  | nil => rfl
  | cons p rest ih => cases p with
    | mk k g =>
      by_cases hk : k = e
      · subst hk
        have hkx : k ≠ x := fun hc => h (hc.symm)
        simp [gupdate, glookup, hkx]
      · by_cases hx : k = x
        · subst hx
          simp [gupdate, glookup, hk]
        · simp [gupdate, glookup, hk, hx, ih]

theorem glookup_premove_ne (x e : String) (ps : List (String × GroupRec)) (h : x ≠ e) :
    glookup x (premove e ps) = glookup x ps := by
  induction ps with
  | nil => rfl
  | cons p rest ih => cases p with
    | mk k g =>
      simp only [premove] at ih ⊢
      by_cases hk : k = e
      · subst hk
        have hkx : k ≠ x := fun hc => h (hc.symm)
        simp [glookup, hkx, ih]
      · by_cases hx : k = x
        · subst hx
          simp [glookup, hk]
        · simp [glookup, hk, hx, ih]

theorem glookup_append_some (x : String) (a b : List (String × GroupRec)) (g : GroupRec)
    (h : glookup x a = some g) : glookup x (a ++ b) = some g := by
  induction a with
  | nil => simp [glookup] at h
  | cons p rest ih => cases p with
    | mk k g2 =>
      by_cases hk : k = x
      · subst hk
        simpa [glookup] using h
      · rw [show glookup x ((k, g2) :: rest) = glookup x rest from by simp [glookup, hk]] at h
        simpa [glookup, hk] using ih h

theorem resolve_eligible_not_excluded (d : Int) (g : GroupRec)
    (h : (resolvePolicy d g).1 = true) : g.excluded_from_global = false := by
  by_cases he : g.excluded_from_global
  · simp [resolvePolicy, he] at h
  · simpa using he

theorem mem_regRemove (r : RegEntry) (e : String) (reg : List RegEntry) :
    r ∈ regRemove e reg ↔ r ∈ reg ∧ r.entity_id ≠ e := by
  simp [regRemove, List.mem_filter]

theorem update_policy_policies (st : CoreState) (e : String) (now : Int) :
    (update_policy_spec st e now).policies = st.policies := by
  unfold update_policy_spec
  cases hg : glookup e st.policies with
  | none => rfl
  | some g =>
    by_cases hel : (resolvePolicy st.globalDefault g).1
    · simp [hel]
    · simp [hel]

theorem update_policy_registry (st : CoreState) (e : String) (now : Int) :
    (update_policy_spec st e now).registry = regRemove e st.registry ∨
      ∃ g, glookup e st.policies = some g ∧ (resolvePolicy st.globalDefault g).1 = true ∧
        (update_policy_spec st e now).registry = regRemove e st.registry ++
          [RegEntry.mk e (now + (resolvePolicy st.globalDefault g).2 * 60) (regInFlight e st.registry)] := by
  cases hg : glookup e st.policies with
  | none =>
    left
    show (update_policy_spec st e now).registry = regRemove e st.registry
    unfold update_policy_spec
    rw [hg]
  | some g =>
    by_cases hel : (resolvePolicy st.globalDefault g).1 = true
    · right
      refine ⟨g, rfl, hel, ?_⟩
      unfold update_policy_spec
      rw [hg]
      simp [hel]
    · left
      show (update_policy_spec st e now).registry = regRemove e st.registry
      unfold update_policy_spec
      rw [hg]
      simp [hel]

theorem coreInv_update_policy (st : CoreState) (e : String) (now : Int)
    (h : ∀ r ∈ st.registry, r.entity_id ≠ e →
      ∃ g, glookup r.entity_id st.policies = some g ∧ g.excluded_from_global = false) :
    CoreInv (update_policy_spec st e now) := by
  intro r hr
  rw [update_policy_policies]
  rcases update_policy_registry st e now with hreg | ⟨g, hg, hel, hreg⟩
  · rw [hreg] at hr
    rcases (mem_regRemove r e st.registry).mp hr with ⟨hmem, hne⟩
    exact h r hmem hne
  · rw [hreg] at hr
    rcases List.mem_append.mp hr with hl | hrl
    · rcases (mem_regRemove r e st.registry).mp hl with ⟨hmem, hne⟩
      exact h r hmem hne
    · have he : r = RegEntry.mk e (now + (resolvePolicy st.globalDefault g).2 * 60)
          (regInFlight e st.registry) := by simpa using hrl
      rw [he]
      exact ⟨g, hg, resolve_eligible_not_excluded _ _ hel⟩

theorem register_policies (st : CoreState) (e : String) (now : Int) :
    (register_spec st e now).policies = st.policies := by
  unfold register_spec
  cases hg : glookup e st.policies with
  | none => rfl
  | some g =>
    by_cases hel : (resolvePolicy st.globalDefault g).1
    · simp [hel]
    · simp [hel]

theorem register_registry (st : CoreState) (e : String) (now : Int) :
    (register_spec st e now).registry = st.registry ∨
      ∃ g, glookup e st.policies = some g ∧ (resolvePolicy st.globalDefault g).1 = true ∧
        (register_spec st e now).registry = regRemove e st.registry ++
          [RegEntry.mk e (now + (resolvePolicy st.globalDefault g).2 * 60) false] := by
  cases hg : glookup e st.policies with
  | none =>
    left
    show (register_spec st e now).registry = st.registry
    unfold register_spec
    rw [hg]
  | some g =>
    by_cases hel : (resolvePolicy st.globalDefault g).1 = true
    · right
      refine ⟨g, rfl, hel, ?_⟩
      unfold register_spec
      rw [hg]
      simp [hel]
    · left
      show (register_spec st e now).registry = st.registry
      unfold register_spec
      rw [hg]
      simp [hel]

theorem coreInv_register (st : CoreState) (e : String) (now : Int)
    (h : CoreInv st) : CoreInv (register_spec st e now) := by
  intro r hr
  rw [register_policies]
  rcases register_registry st e now with hreg | ⟨g, hg, hel, hreg⟩
  · rw [hreg] at hr
    exact h r hr
  · rw [hreg] at hr
    rcases List.mem_append.mp hr with hl | hrl
    · rcases (mem_regRemove r e st.registry).mp hl with ⟨hmem, _⟩
      exact h r hmem
    · have he : r = RegEntry.mk e (now + (resolvePolicy st.globalDefault g).2 * 60) false := by
        simpa using hrl
      rw [he]
      exact ⟨g, hg, resolve_eligible_not_excluded _ _ hel⟩

theorem dispatchEntry_id (st : CoreState) (now : Int) (r : RegEntry) :
    (dispatchEntry st now r).entity_id = r.entity_id := by
  unfold dispatchEntry
  split_ifs with h
  · cases glookup r.entity_id st.policies with
    | none => rfl
    | some g => rfl
  · rfl

theorem coreInv_applyMgmt (st : CoreState) (op : MgmtOp) (h : CoreInv st) :
    CoreInv (applyMgmt st op) := by
  cases op with
  | addEntity e now =>
    have hred : applyMgmt st (MgmtOp.addEntity e now) =
        (match glookup e st.policies with
          | some _ => st
          | none => register_spec
              { st with policies := st.policies ++ [(e, defaultPolicy e)] } e now) := rfl
    rw [hred]
    cases hg : glookup e st.policies with
    | some g => exact h
    | none =>
      apply coreInv_register
      intro r hr
      rcases h r hr with ⟨g, hgl, hex⟩
      exact ⟨g, glookup_append_some _ _ _ _ hgl, hex⟩
  | removeEntity e =>
    have hred : applyMgmt st (MgmtOp.removeEntity e) =
        { st with policies := premove e st.policies, registry := regRemove e st.registry } := rfl
    rw [hred]
    intro r hr
    rcases (mem_regRemove r e st.registry).mp hr with ⟨hmem, hne⟩
    rcases h r hmem with ⟨g, hgl, hex⟩
    refine ⟨g, ?_, hex⟩
    show glookup r.entity_id (premove e st.policies) = some g
    rw [glookup_premove_ne _ _ _ hne]
    exact hgl
  | setGlobalInterval m now =>
    have hred : applyMgmt st (MgmtOp.setGlobalInterval m now) =
        (if m < 1 ∨ m > 1440 then st
         else { globalDefault := m, policies := st.policies,
                registry := st.registry.map (fun r =>
                  match glookup r.entity_id st.policies with
                  | some g =>
                    if g.custom_interval_min = none ∧ g.excluded_from_global = false then
                      { r with next_run := now + m * 60 }
                    else r
                  | none => r) }) := rfl
    rw [hred]
    split_ifs with hrange
    · exact h
    · intro r hr
      rcases List.mem_map.mp hr with ⟨r0, hr0, hre⟩
      rcases h r0 hr0 with ⟨g, hgl, hex⟩
      have hid : r.entity_id = r0.entity_id := by
        rw [← hre]
        show (match glookup r0.entity_id st.policies with
          | some g =>
            if g.custom_interval_min = none ∧ g.excluded_from_global = false then
              { r0 with next_run := now + m * 60 }
            else r0
          | none => r0).entity_id = r0.entity_id
        cases hg : glookup r0.entity_id st.policies with
        | none => rfl
        | some g2 =>
          by_cases hc : g2.custom_interval_min = none ∧ g2.excluded_from_global = false
          · simp [hc]
          · simp [hc]
      refine ⟨g, ?_, hex⟩
      show glookup r.entity_id st.policies = some g
      rw [hid]
      exact hgl
  | setExclusion e flag now =>
    have hred : applyMgmt st (MgmtOp.setExclusion e flag now) =
        (match glookup e st.policies with
          | none => st
          | some _ => update_policy_spec
              { st with policies :=
                  gupdate e (fun g => { g with excluded_from_global := flag }) st.policies }
              e now) := rfl
    rw [hred]
    cases hg : glookup e st.policies with
    | none => exact h
    | some g0 =>
      apply coreInv_update_policy
      intro r hr hne
      rcases h r hr with ⟨g, hgl, hex⟩
      refine ⟨g, ?_, hex⟩
      show glookup r.entity_id
        (gupdate e (fun g2 => { g2 with excluded_from_global := flag }) st.policies) = some g
      rw [glookup_gupdate_ne _ _ _ _ hne]
      exact hgl
  | setEntityInterval e m now =>
    have hred : applyMgmt st (MgmtOp.setEntityInterval e m now) =
        (if m < 1 ∨ m > 1440 then st
         else match glookup e st.policies with
          | none => st
          | some _ => update_policy_spec
              { st with policies :=
                  gupdate e (fun g => { g with custom_interval_min := some m }) st.policies }
              e now) := rfl
    rw [hred]
    split_ifs with hrange
    · exact h
    · cases hg : glookup e st.policies with
      | none => exact h
      | some g0 =>
        apply coreInv_update_policy
        intro r hr hne
        rcases h r hr with ⟨g, hgl, hex⟩
        refine ⟨g, ?_, hex⟩
        show glookup r.entity_id
          (gupdate e (fun g2 => { g2 with custom_interval_min := some m }) st.policies) = some g
        rw [glookup_gupdate_ne _ _ _ _ hne]
        exact hgl
  | loopTick now =>
    have hred : applyMgmt st (MgmtOp.loopTick now) =
        { st with registry := st.registry.map (dispatchEntry st now) } := rfl
    rw [hred]
    intro r hr
    rcases List.mem_map.mp hr with ⟨r0, hr0, hre⟩
    rcases h r0 hr0 with ⟨g, hgl, hex⟩
    refine ⟨g, ?_, hex⟩
    show glookup r.entity_id st.policies = some g
    rw [← hre, dispatchEntry_id]
    exact hgl
  | completeExec e =>
    have hred : applyMgmt st (MgmtOp.completeExec e) =
        { st with registry := st.registry.map (fun r =>
            if r.entity_id = e then { r with in_flight := false } else r) } := rfl
    rw [hred]
    intro r hr
    rcases List.mem_map.mp hr with ⟨r0, hr0, hre⟩
    rcases h r0 hr0 with ⟨g, hgl, hex⟩
    refine ⟨g, ?_, hex⟩
    have hid : r.entity_id = r0.entity_id := by
      rw [← hre]
      show (if r0.entity_id = e then { r0 with in_flight := false } else r0).entity_id =
        r0.entity_id
      split_ifs with hc
      · rfl
      · rfl
    show glookup r.entity_id st.policies = some g
    rw [hid]
    exact hgl

theorem coreInv_applyMgmtList (ops : List MgmtOp) :
    ∀ st : CoreState, CoreInv st → CoreInv (applyMgmtList st ops) := by
  induction ops with
  | nil => intro st h; exact h
  | cons op rest ih =>
    intro st h
    exact ih (applyMgmt st op) (coreInv_applyMgmt st op h)

/-- C5, settled against the spec-modelled registry (no code in `src/`
registers entities with the scheduler or implements `due()`): along any
sequence of management and scheduler-loop operations from the initial
state, an entity whose current policy has the exclusion flag set never
appears in the output of `due(now)`, for any `now`, regardless of its
override interval or the global default. -/
theorem c5_excluded_never_due (ops : List MgmtOp) (e : String) (g : GroupRec) (now : Int)
    (hp : glookup e (applyMgmtList initCore ops).policies = some g)
    (hx : g.excluded_from_global = true) :
    e ∉ due_spec (applyMgmtList initCore ops).registry now := by
  intro hmem
  unfold due_spec at hmem
  rcases List.mem_map.mp hmem with ⟨r, hr, hid⟩
  have hr2 : r ∈ (applyMgmtList initCore ops).registry := by
    have hperm := (List.perm_insertionSort (fun a b => a.next_run ≤ b.next_run)
      ((applyMgmtList initCore ops).registry.filter
        (fun r => decide (r.next_run ≤ now) && !r.in_flight))).mem_iff.mp hr
    exact (List.mem_filter.mp hperm).1
  have hinv : CoreInv (applyMgmtList initCore ops) :=
    coreInv_applyMgmtList ops initCore (by intro r hrr; simp [initCore] at hrr)
  rcases hinv r hr2 with ⟨g2, hg2, hex⟩
  rw [hid, hp] at hg2
  injection hg2 with he
  rw [← he, hx] at hex
  exact Bool.noConfusion hex

/-- Witness for C5: entity "B" is added, given a 3-minute override, then
excluded; its policy shows the exclusion flag and it is absent from
`due(100)`. -/
theorem c5_witness :
    glookup "B" (applyMgmtList initCore
        [MgmtOp.addEntity "B" 0, MgmtOp.setEntityInterval "B" 3 0,
          MgmtOp.setExclusion "B" true 0]).policies =
      some (GroupRec.mk none none (some 3) true) ∧
    "B" ∉ due_spec (applyMgmtList initCore
        [MgmtOp.addEntity "B" 0, MgmtOp.setEntityInterval "B" 3 0,
          MgmtOp.setExclusion "B" true 0]).registry 100 :=
  ⟨by decide,
    c5_excluded_never_due
      [MgmtOp.addEntity "B" 0, MgmtOp.setEntityInterval "B" 3 0,
        MgmtOp.setExclusion "B" true 0]
      "B" (GroupRec.mk none none (some 3) true) 100 (by decide) rfl⟩

end TB
